import Mathlib

/-!
# Verification of the robot-control-language validator (`logic.py`)

Shallow embedding of the lexer, recursive-descent parser, semantic checker
and validator of `logic.py` (the `check_file` pipeline).  The Python regex
scanner is embedded as a character-list scanner with the same ordered
alternatives and greedy (maximal-munch) sub-patterns; the character classes
`[A-Za-z_]`, `[A-Za-z0-9_]`, `\d` are taken in their ASCII reading.  The
parser's module-level mutable state (`tokens`, `pos`, `procedures`) is
threaded explicitly: every parse function receives the token list and the
cursor and returns the possibly-failed result together with the new cursor.
Python exceptions become `Except` values.  Recursion is driven by an
explicit fuel argument so that every definition is executable by kernel
reduction; fuel exhaustion is reported as an error that never occurs when
the fuel is at least as large as the bounds used in `checkSource`.
-/

namespace LYM

/-- ASCII letter or underscore: the regex class `[A-Za-z_]`. -/
def isIdentStart (c : Char) : Bool :=
  c.isAlpha || c = '_'

/-- ASCII letter, digit or underscore: the regex class `[A-Za-z0-9_]`. -/
def isIdentChar (c : Char) : Bool :=
  c.isAlpha || c.isDigit || c = '_'

/-- Space or tab: the regex class `[ \t]` of the `SKIP` pattern. -/
def isSpaceTab (c : Char) : Bool :=
  c = ' ' || c = '\t'

/-- The named groups of the master token regular expression of `tokenize`. -/
inductive RawKind where
  | ASSIGN | HASHID | NUMBER | ID | PIPE | LBRACKET | RBRACKET
  | COLON | DOT | COMMA | SKIP | NEWLINE | MISMATCH
deriving DecidableEq, Repr

/-- One step of `regex.finditer`: at each position the first alternative of
`token_specs` that matches wins, and each alternative is greedy.  `scanAux`
returns the sequence of (group name, matched span) pairs; the fuel only
bounds the recursion and one character is consumed per step, so
`fuel = cs.length` always suffices (see `scanAux_concat`). -/
def scanAux : Nat → List Char → List (RawKind × List Char)
  | 0, _ => []
  | _ + 1, [] => []
  | fuel + 1, c :: cs =>
    if c = ':' then
      match cs with
      | '=' :: rest => (.ASSIGN, [':', '=']) :: scanAux fuel rest
      | _ => (.COLON, [':']) :: scanAux fuel cs
    else if c = '#' then
      match cs with
      | d :: rest =>
        if isIdentStart d then
          (.HASHID, '#' :: d :: rest.takeWhile isIdentChar) ::
            scanAux fuel (rest.dropWhile isIdentChar)
        else (.MISMATCH, ['#']) :: scanAux fuel cs
      | [] => (.MISMATCH, ['#']) :: scanAux fuel cs
    else if c.isDigit then
      (.NUMBER, c :: cs.takeWhile Char.isDigit) ::
        scanAux fuel (cs.dropWhile Char.isDigit)
    else if isIdentStart c then
      (.ID, c :: cs.takeWhile isIdentChar) ::
        scanAux fuel (cs.dropWhile isIdentChar)
    else if c = '|' then (.PIPE, [c]) :: scanAux fuel cs
    else if c = '[' then (.LBRACKET, [c]) :: scanAux fuel cs
    else if c = ']' then (.RBRACKET, [c]) :: scanAux fuel cs
    else if c = '.' then (.DOT, [c]) :: scanAux fuel cs
    else if c = ',' then (.COMMA, [c]) :: scanAux fuel cs
    else if isSpaceTab c then
      (.SKIP, c :: cs.takeWhile isSpaceTab) ::
        scanAux fuel (cs.dropWhile isSpaceTab)
    else if c = '\n' then (.NEWLINE, [c]) :: scanAux fuel cs
    else (.MISMATCH, [c]) :: scanAux fuel cs

/-- The full match sequence of `regex.finditer(text)`. -/
def scan (cs : List Char) : List (RawKind × List Char) :=
  scanAux cs.length cs

/-- Token payloads: `int(value)` for `NUMBER`, the matched string otherwise. -/
inductive TokVal where
  | num (n : Nat)
  | str (s : String)
deriving DecidableEq, Repr

/-- A token tuple `(kind, value, line_num, column)` as built by `tokenize`. -/
structure Token where
  kind : RawKind
  val : TokVal
  line : Nat
  col : Nat
deriving DecidableEq, Repr

/-- `int(value)` on the digit span matched by the `NUMBER` group. -/
def natOfDigits (l : List Char) : Nat :=
  l.foldl (fun a c => a * 10 + (c.toNat - '0'.toNat)) 0

/-- The body of the `for mo in regex.finditer(text)` loop of `tokenize`:
`line` is `line_num`, `off` the start offset of the current match, `ls` is
`line_start`; `column = mo.start() - line_start`. -/
def tokensOfScan : List (RawKind × List Char) → Nat → Nat → Nat →
    Except String (List Token)
  | [], _, _, _ => .ok []
  | (k, lx) :: ms, line, off, ls =>
    match k with
    | .NUMBER =>
      match tokensOfScan ms line (off + lx.length) ls with
      | .error e => .error e
      | .ok ts => .ok (⟨.NUMBER, .num (natOfDigits lx), line, off - ls⟩ :: ts)
    | .ID | .HASHID | .PIPE | .LBRACKET | .RBRACKET | .COLON | .DOT
    | .COMMA | .ASSIGN =>
      match tokensOfScan ms line (off + lx.length) ls with
      | .error e => .error e
      | .ok ts => .ok (⟨k, .str (String.mk lx), line, off - ls⟩ :: ts)
    | .NEWLINE => tokensOfScan ms (line + 1) (off + 1) (off + 1)
    | .SKIP => tokensOfScan ms line (off + lx.length) ls
    | .MISMATCH =>
      .error ("Unexpected character '" ++ String.mk lx ++ "' on line "
        ++ toString line)

/-- `tokenize(text)` of `logic.py`. -/
def tokenize (s : String) : Except String (List Token) :=
  tokensOfScan (scan s.data) 1 0 0

/-! ## AST

`logic.py` builds the AST from dicts, lists and tagged tuples:
`('num', v)`, `('const', v)`, `('id', v)` for expressions,
`('assign', name, expr)`, `('proc_call', name, args)`,
`('while', cond_parts, block)`, `('if', cond_parts, then, else)` for
instructions, a plain list of names for a variable declaration used as an
instruction, and dicts for procedure definitions and the program. -/

/-- Expression tuples of `parse_expression`. -/
inductive Expr where
  | num (n : Nat)
  | const (s : String)
  | id (s : String)
deriving DecidableEq, Repr

/-- An element of a `cond_parts` list: an expression or the literal `':'`
string that `parse_while_structure`/`parse_if_structure` append. -/
inductive CondPart where
  | expr (e : Expr)
  | colon
deriving DecidableEq, Repr

/-- Instruction nodes.  A local variable declaration instruction is the
plain list returned by `parse_variable_declaration`. -/
inductive Instr where
  | varDecl (ids : List String)
  | assign (name : String) (e : Expr)
  | procCall (name : String) (args : List Expr)
  | whileI (cond : List CondPart) (body : List Instr)
  | ifI (cond : List CondPart) (thenB : List Instr) (elseB : Option (List Instr))
deriving Repr

/-- The dict `{'name': .., 'params': .., 'body': ..}` of
`parse_procedure_definition`. -/
structure ProcDef where
  name : String
  params : List String
  body : List Instr
deriving Repr

/-- The dict `{'variables': .., 'procedures': .., 'main': ..}` of
`parse_program` (keys in insertion order); the `'variables'` entry is the
field `vars` (`variables` is a reserved word in Lean). -/
structure Program where
  vars : List String
  procedures : List ProcDef
  main : List Instr
deriving Repr

/-- `procedures[proc_name] = proc_def` on the module-level `procedures`
dict, modelled as an association list with dict-update semantics (later
definitions overwrite earlier ones). -/
def insertProc : List (String × ProcDef) → String → ProcDef → List (String × ProcDef)
  | [], n, d => [(n, d)]
  | (m, e) :: ps, n, d =>
    if m = n then (n, d) :: ps else (m, e) :: insertProc ps n d

/-! ## Parser

Each Python parse function becomes a function from the token list and the
cursor `pos` to an `Except`-wrapped result paired with the new cursor
(mirroring the module-level mutable `pos`, which keeps its value when an
exception propagates).  `while` loops become accumulator-passing recursive
helpers.  The fuel argument makes all recursion structural; with the fuel
used by `checkSource` it is never exhausted, since every loop iteration and
every nested call consumes at least one token. -/

/-- `current_token()` relative to an explicit token list and cursor. -/
def currentToken (tks : List Token) (pos : Nat) : Option Token :=
  tks[pos]?

/-- `token[1]` of a token that carries a string payload. -/
def tokStr : TokVal → String
  | .str s => s
  | .num n => toString n

/-- `token[1]` of a `NUMBER` token. -/
def tokNum : TokVal → Nat
  | .num n => n
  | .str _ => 0

/-- Group name as the string used in error messages. -/
def showKind : RawKind → String
  | .ASSIGN => "ASSIGN" | .HASHID => "HASHID" | .NUMBER => "NUMBER"
  | .ID => "ID" | .PIPE => "PIPE" | .LBRACKET => "LBRACKET"
  | .RBRACKET => "RBRACKET" | .COLON => "COLON" | .DOT => "DOT"
  | .COMMA => "COMMA" | .SKIP => "SKIP" | .NEWLINE => "NEWLINE"
  | .MISMATCH => "MISMATCH"

/-- Rendering of `token[1]` in messages. -/
def showVal : TokVal → String
  | .num n => toString n
  | .str s => "'" ++ s ++ "'"

/-- Rendering of the token tuple in messages (`str(token)`). -/
def showToken (t : Token) : String :=
  "(" ++ showKind t.kind ++ ", " ++ showVal t.val ++ ", "
    ++ toString t.line ++ ", " ++ toString t.col ++ ")"

/-- `error(message)`: the exception text raised at the current cursor. -/
def errMsg (tks : List Token) (pos : Nat) (msg : String) : String :=
  match tks[pos]? with
  | some t =>
    "Syntax error at line " ++ toString t.line ++ ", col " ++ toString t.col
      ++ ": " ++ msg ++ " (got " ++ showToken t ++ ")"
  | none => "Syntax error at end of input: " ++ msg

/-- `expect(token_type, token_value)`: advances on success, raises (leaving
the cursor unchanged) otherwise. -/
def expectTok (tks : List Token) (pos : Nat) (k : RawKind)
    (v : Option TokVal) : Except String Unit × Nat :=
  match tks[pos]? with
  | none => (.error (errMsg tks pos "Unexpected end of input"), pos)
  | some t =>
    if t.kind ≠ k then
      (.error (errMsg tks pos ("Expected token type " ++ showKind k
        ++ " but got " ++ showKind t.kind)), pos)
    else
      match v with
      | some v' =>
        if t.val ≠ v' then
          (.error (errMsg tks pos ("Expected token value " ++ showVal v'
            ++ " but got " ++ showVal t.val)), pos)
        else (.ok (), pos + 1)
      | none => (.ok (), pos + 1)

/-- The error reported when the fuel runs out; unreachable under the fuel
supplied by `checkSource` (the Python recursion always terminates). -/
def fuelMsg : String := "fuel exhausted"

/-- `parse_expression` (`logic.py` version, producing tagged tuples). -/
def parseExpression (tks : List Token) (pos : Nat) :
    Except String Expr × Nat :=
  match tks[pos]? with
  | none =>
    (.error (errMsg tks pos "Expected an expression but found end of input"),
      pos)
  | some t =>
    if t.kind = .NUMBER then (.ok (.num (tokNum t.val)), pos + 1)
    else if t.kind = .HASHID then (.ok (.const (tokStr t.val)), pos + 1)
    else if t.kind = .ID then (.ok (.id (tokStr t.val)), pos + 1)
    else
      (.error (errMsg tks pos "Expected an expression (NUMBER, ID, or HASHID)"),
        pos)

/-- `parse_condition`. -/
def parseCondition (tks : List Token) (pos : Nat) :
    Except String Expr × Nat :=
  parseExpression tks pos

/-- The identifier loop of `parse_variable_declaration`: collect `ID`
tokens, skipping one `COMMA` after each. -/
def parseVarItems : Nat → List Token → Nat → List String →
    Except String (List String) × Nat
  | 0, _, pos, _ => (.error fuelMsg, pos)
  | fuel + 1, tks, pos, acc =>
    match tks[pos]? with
    | some t =>
      if t.kind = .ID then
        let p1 := pos + 1
        let p2 :=
          match tks[p1]? with
          | some u => if u.kind = .COMMA then p1 + 1 else p1
          | none => p1
        parseVarItems fuel tks p2 (acc ++ [tokStr t.val])
      else (.ok acc, pos)
    | none => (.ok acc, pos)

/-- `parse_variable_declaration`. -/
def parseVariableDeclaration (fuel : Nat) (tks : List Token) (pos : Nat) :
    Except String (List String) × Nat :=
  match expectTok tks pos .PIPE none with
  | (.error e, p) => (.error e, p)
  | (.ok _, p1) =>
    match parseVarItems fuel tks p1 [] with
    | (.error e, p) => (.error e, p)
    | (.ok vars, p2) =>
      match expectTok tks p2 .PIPE none with
      | (.error e, p) => (.error e, p)
      | (.ok _, p3) => (.ok vars, p3)

/-- `parse_assignment`. -/
def parseAssignment (tks : List Token) (pos : Nat) :
    Except String Instr × Nat :=
  match tks[pos]? with
  | some t =>
    if t.kind = .ID then
      match expectTok tks (pos + 1) .ASSIGN none with
      | (.error e, p) => (.error e, p)
      | (.ok _, p1) =>
        match parseExpression tks p1 with
        | (.error e, p) => (.error e, p)
        | (.ok e, p2) =>
          match expectTok tks p2 .DOT none with
          | (.error er, p) => (.error er, p)
          | (.ok _, p3) => (.ok (.assign (tokStr t.val) e), p3)
    else (.error (errMsg tks pos "Expected variable name in assignment"), pos)
  | none => (.error (errMsg tks pos "Expected variable name in assignment"), pos)

/-- The parameter loop of `parse_procedure_call`: a bare `COLON` introduces
an argument; an `ID` immediately followed by a `COLON` is a discarded label
and the expression after the `COLON` is the argument; anything else stops
the loop. -/
def parseCallArgs : Nat → List Token → Nat → List Expr →
    Except String (List Expr) × Nat
  | 0, _, pos, _ => (.error fuelMsg, pos)
  | fuel + 1, tks, pos, acc =>
    match tks[pos]? with
    | none => (.ok acc, pos)
    | some t =>
      if t.kind = .COLON then
        match parseExpression tks (pos + 1) with
        | (.error e, p) => (.error e, p)
        | (.ok e, p1) => parseCallArgs fuel tks p1 (acc ++ [e])
      else if t.kind = .ID then
        match tks[pos + 1]? with
        | some u =>
          if u.kind = .COLON then
            match expectTok tks (pos + 1) .COLON none with
            | (.error e, p) => (.error e, p)
            | (.ok _, p1) =>
              match parseExpression tks p1 with
              | (.error e, p) => (.error e, p)
              | (.ok e, p2) => parseCallArgs fuel tks p2 (acc ++ [e])
          else (.ok acc, pos)
        | none => (.ok acc, pos)
      else (.ok acc, pos)

/-- `parse_procedure_call`.  After the arguments, a `DOT` is consumed when
present; when absent, every token other than `RBRACKET` is a syntax error,
and the end of input is accepted silently. -/
def parseProcedureCall (fuel : Nat) (tks : List Token) (pos : Nat) :
    Except String Instr × Nat :=
  match tks[pos]? with
  | none =>
    (.error (errMsg tks pos "Expected procedure name in procedure call"), pos)
  | some t =>
    if t.kind = .ID then
      match parseCallArgs fuel tks (pos + 1) [] with
      | (.error e, p) => (.error e, p)
      | (.ok args, q) =>
        match tks[q]? with
        | some u =>
          if u.kind = .DOT then (.ok (.procCall (tokStr t.val) args), q + 1)
          else if u.kind ≠ .RBRACKET then
            (.error (errMsg tks q
              ("Expected token type DOT or end-of-block but got "
                ++ showToken u)), q)
          else (.ok (.procCall (tokStr t.val) args), q)
        | none => (.ok (.procCall (tokStr t.val) args), q)
    else
      (.error (errMsg tks pos "Expected procedure name in procedure call"),
        pos)

/-- The condition loop of `parse_while_structure`: collect parts until the
keyword `do` (or the end of input). -/
def parseWhileCondParts : Nat → List Token → Nat → List CondPart →
    Except String (List CondPart) × Nat
  | 0, _, pos, _ => (.error fuelMsg, pos)
  | fuel + 1, tks, pos, acc =>
    match tks[pos]? with
    | none => (.ok acc, pos)
    | some t =>
      if t.kind = .ID ∧ t.val = .str "do" then (.ok acc, pos)
      else if t.kind = .COLON then
        match parseExpression tks (pos + 1) with
        | (.error e, p) => (.error e, p)
        | (.ok e, p1) =>
          parseWhileCondParts fuel tks p1 (acc ++ [.colon, .expr e])
      else
        match parseExpression tks pos with
        | (.error e, p) => (.error e, p)
        | (.ok e, p1) => parseWhileCondParts fuel tks p1 (acc ++ [.expr e])

/-- The condition loop of `parse_if_structure`: collect parts until the
keyword `then` (or the end of input). -/
def parseIfCondParts : Nat → List Token → Nat → List CondPart →
    Except String (List CondPart) × Nat
  | 0, _, pos, _ => (.error fuelMsg, pos)
  | fuel + 1, tks, pos, acc =>
    match tks[pos]? with
    | none => (.ok acc, pos)
    | some t =>
      if t.kind = .ID ∧ t.val = .str "then" then (.ok acc, pos)
      else if t.kind = .COLON then
        match parseExpression tks (pos + 1) with
        | (.error e, p) => (.error e, p)
        | (.ok e, p1) =>
          parseIfCondParts fuel tks p1 (acc ++ [.colon, .expr e])
      else
        match parseExpression tks pos with
        | (.error e, p) => (.error e, p)
        | (.ok e, p1) => parseIfCondParts fuel tks p1 (acc ++ [.expr e])

/-- The parameter loop of `parse_procedure_definition`: a `COLON` or an
`ID` whose text starts with `"and"` introduces one parameter name. -/
def parseProcParams : Nat → List Token → Nat → List String →
    Except String (List String) × Nat
  | 0, _, pos, _ => (.error fuelMsg, pos)
  | fuel + 1, tks, pos, acc =>
    match tks[pos]? with
    | none => (.ok acc, pos)
    | some t =>
      if t.kind = .COLON then
        match tks[pos + 1]? with
        | some u =>
          if u.kind = .ID then
            parseProcParams fuel tks (pos + 2) (acc ++ [tokStr u.val])
          else
            (.error (errMsg tks (pos + 1) "Expected parameter name after ':'"),
              pos + 1)
        | none =>
          (.error (errMsg tks (pos + 1) "Expected parameter name after ':'"),
            pos + 1)
      else if t.kind = .ID ∧ (tokStr t.val).startsWith "and" then
        match expectTok tks (pos + 1) .COLON none with
        | (.error e, p) => (.error e, p)
        | (.ok _, p1) =>
          match tks[p1]? with
          | some u =>
            if u.kind = .ID then
              parseProcParams fuel tks (p1 + 1) (acc ++ [tokStr u.val])
            else
              (.error (errMsg tks p1 "Expected parameter name after 'and...:'"),
                p1)
          | none =>
            (.error (errMsg tks p1 "Expected parameter name after 'and...:'"),
              p1)
      else (.ok acc, pos)

/-- The six mutually recursive parse functions
(`parse_code_block`, its instruction loop, `parse_instruction`,
`parse_control_structure`, `parse_while_structure`, `parse_if_structure`)
bundled as one record, built level by level over the fuel so that the
recursion is structural on `Nat` (each call site passes the next-lower
level, exactly as each of the separate functions would decrement the
fuel). -/
structure ParserSet where
  codeBlock : List Token → Nat → Except String (List Instr) × Nat
  instrItems : List Token → Nat → List Instr → Except String (List Instr) × Nat
  instruction : List Token → Nat → Except String Instr × Nat
  control : List Token → Nat → Except String Instr × Nat
  whileS : List Token → Nat → Except String Instr × Nat
  ifS : List Token → Nat → Except String Instr × Nat

/-- The parser record at a given fuel level; level `0` is exhausted. -/
def parsersAt : Nat → ParserSet
  | 0 =>
    { codeBlock := fun _ pos => (.error fuelMsg, pos)
      instrItems := fun _ pos _ => (.error fuelMsg, pos)
      instruction := fun _ pos => (.error fuelMsg, pos)
      control := fun _ pos => (.error fuelMsg, pos)
      whileS := fun _ pos => (.error fuelMsg, pos)
      ifS := fun _ pos => (.error fuelMsg, pos) }
  | fuel + 1 =>
    let P := parsersAt fuel
    { -- `parse_code_block`
      codeBlock := fun tks pos =>
        match expectTok tks pos .LBRACKET none with
        | (.error e, p) => (.error e, p)
        | (.ok _, p1) =>
          match P.instrItems tks p1 [] with
          | (.error e, p) => (.error e, p)
          | (.ok instrs, p2) =>
            match expectTok tks p2 .RBRACKET none with
            | (.error e, p) => (.error e, p)
            | (.ok _, p3) => (.ok instrs, p3)
      -- the instruction loop of `parse_code_block`: parse instructions
      -- while the current token exists and is not `RBRACKET`
      instrItems := fun tks pos acc =>
        match tks[pos]? with
        | none => (.ok acc, pos)
        | some t =>
          if t.kind = .RBRACKET then (.ok acc, pos)
          else
            match P.instruction tks pos with
            | (.error e, p) => (.error e, p)
            | (.ok i, p1) => P.instrItems tks p1 (acc ++ [i])
      -- `parse_instruction`: dispatch on the current token (and a
      -- one-token lookahead for assignments)
      instruction := fun tks pos =>
        match tks[pos]? with
        | none =>
          (.error (errMsg tks pos "Unexpected end of input in instruction"), pos)
        | some t =>
          if t.kind = .PIPE then
            match parseVariableDeclaration fuel tks pos with
            | (.error e, p) => (.error e, p)
            | (.ok ids, p1) => (.ok (.varDecl ids), p1)
          else if t.kind = .ID ∧ (t.val = .str "if" ∨ t.val = .str "while") then
            P.control tks pos
          else if t.kind == .ID &&
              (match tks[pos + 1]? with
               | some u => u.kind == .ASSIGN
               | none => false) then
            parseAssignment tks pos
          else parseProcedureCall fuel tks pos
      -- `parse_control_structure`; the `none` case would be a `TypeError`
      -- in Python (`current_token()` returning `None` is subscripted); it
      -- is unreachable from `parse_instruction` and collapses to an error
      control := fun tks pos =>
        match tks[pos]? with
        | none => (.error "TypeError: NoneType object is not subscriptable", pos)
        | some t =>
          if t.kind = .ID ∧ t.val = .str "while" then
            P.whileS tks pos
          else if t.kind = .ID ∧ t.val = .str "if" then
            P.ifS tks pos
          else (.error (errMsg tks pos "Unknown control structure"), pos)
      -- `parse_while_structure`
      whileS := fun tks pos =>
        match expectTok tks pos .ID (some (.str "while")) with
        | (.error e, p) => (.error e, p)
        | (.ok _, p1) =>
          match expectTok tks p1 .COLON none with
          | (.error e, p) => (.error e, p)
          | (.ok _, p2) =>
            match parseCondition tks p2 with
            | (.error e, p) => (.error e, p)
            | (.ok cond, p3) =>
              match parseWhileCondParts fuel tks p3 [.expr cond] with
              | (.error e, p) => (.error e, p)
              | (.ok parts, p4) =>
                match expectTok tks p4 .ID (some (.str "do")) with
                | (.error e, p) => (.error e, p)
                | (.ok _, p5) =>
                  match expectTok tks p5 .COLON none with
                  | (.error e, p) => (.error e, p)
                  | (.ok _, p6) =>
                    match P.codeBlock tks p6 with
                    | (.error e, p) => (.error e, p)
                    | (.ok block, p7) => (.ok (.whileI parts block), p7)
      -- `parse_if_structure`
      ifS := fun tks pos =>
        match expectTok tks pos .ID (some (.str "if")) with
        | (.error e, p) => (.error e, p)
        | (.ok _, p1) =>
          match expectTok tks p1 .COLON none with
          | (.error e, p) => (.error e, p)
          | (.ok _, p2) =>
            match parseCondition tks p2 with
            | (.error e, p) => (.error e, p)
            | (.ok cond, p3) =>
              match parseIfCondParts fuel tks p3 [.expr cond] with
              | (.error e, p) => (.error e, p)
              | (.ok parts, p4) =>
                match expectTok tks p4 .ID (some (.str "then")) with
                | (.error e, p) => (.error e, p)
                | (.ok _, p5) =>
                  match expectTok tks p5 .COLON none with
                  | (.error e, p) => (.error e, p)
                  | (.ok _, p6) =>
                    match P.codeBlock tks p6 with
                    | (.error e, p) => (.error e, p)
                    | (.ok thenB, p7) =>
                      match tks[p7]? with
                      | some u =>
                        if u.kind = .ID ∧ u.val = .str "else" then
                          match expectTok tks (p7 + 1) .COLON none with
                          | (.error e, p) => (.error e, p)
                          | (.ok _, p8) =>
                            match P.codeBlock tks p8 with
                            | (.error e, p) => (.error e, p)
                            | (.ok elseB, p9) =>
                              (.ok (.ifI parts thenB (some elseB)), p9)
                        else (.ok (.ifI parts thenB none), p7)
                      | none => (.ok (.ifI parts thenB none), p7) }

/-- `parse_code_block`. -/
def parseCodeBlock (fuel : Nat) (tks : List Token) (pos : Nat) :
    Except String (List Instr) × Nat :=
  (parsersAt fuel).codeBlock tks pos

/-- The instruction loop of `parse_code_block`. -/
def parseInstrItems (fuel : Nat) (tks : List Token) (pos : Nat)
    (acc : List Instr) : Except String (List Instr) × Nat :=
  (parsersAt fuel).instrItems tks pos acc

/-- `parse_instruction`. -/
def parseInstruction (fuel : Nat) (tks : List Token) (pos : Nat) :
    Except String Instr × Nat :=
  (parsersAt fuel).instruction tks pos

/-- `parse_control_structure`. -/
def parseControlStructure (fuel : Nat) (tks : List Token) (pos : Nat) :
    Except String Instr × Nat :=
  (parsersAt fuel).control tks pos

/-- `parse_while_structure`. -/
def parseWhileStructure (fuel : Nat) (tks : List Token) (pos : Nat) :
    Except String Instr × Nat :=
  (parsersAt fuel).whileS tks pos

/-- `parse_if_structure`. -/
def parseIfStructure (fuel : Nat) (tks : List Token) (pos : Nat) :
    Except String Instr × Nat :=
  (parsersAt fuel).ifS tks pos

/-- `parse_procedure_definition`; also performs the
`procedures[proc_name] = proc_def` update on the threaded dict. -/
def parseProcedureDefinition (fuel : Nat) (tks : List Token) (pos : Nat)
    (procs : List (String × ProcDef)) :
    Except String ProcDef × Nat × List (String × ProcDef) :=
  match expectTok tks pos .ID (some (.str "proc")) with
  | (.error e, p) => (.error e, p, procs)
  | (.ok _, p1) =>
    match tks[p1]? with
    | some t =>
      if t.kind = .ID then
        match parseProcParams fuel tks (p1 + 1) [] with
        | (.error e, p) => (.error e, p, procs)
        | (.ok params, p2) =>
          match parseCodeBlock fuel tks p2 with
          | (.error e, p) => (.error e, p, procs)
          | (.ok body, p3) =>
            let d : ProcDef := ⟨tokStr t.val, params, body⟩
            (.ok d, p3, insertProc procs d.name d)
      else
        (.error (errMsg tks p1 "Expected procedure name after 'proc'"), p1,
          procs)
    | none =>
      (.error (errMsg tks p1 "Expected procedure name after 'proc'"), p1,
        procs)

/-- The procedure-definition loop of `parse_program`: parse definitions
while the current token is the identifier `proc`. -/
def parseProcDefs : Nat → List Token → Nat → List (String × ProcDef) →
    List ProcDef → Except String (List ProcDef) × Nat × List (String × ProcDef)
  | 0, _, pos, procs, _ => (.error fuelMsg, pos, procs)
  | fuel + 1, tks, pos, procs, acc =>
    match tks[pos]? with
    | some t =>
      if t.kind = .ID ∧ t.val = .str "proc" then
        match parseProcedureDefinition fuel tks pos procs with
        | (.error e, p, pr) => (.error e, p, pr)
        | (.ok d, p1, pr) => parseProcDefs fuel tks p1 pr (acc ++ [d])
      else (.ok acc, pos, procs)
    | none => (.ok acc, pos, procs)

/-- `parse_program`. -/
def parseProgram (fuel : Nat) (tks : List Token) (pos : Nat)
    (procs : List (String × ProcDef)) :
    Except String Program × Nat × List (String × ProcDef) :=
  let varsRes : Except String (List String) × Nat :=
    match tks[pos]? with
    | some t =>
      if t.kind = .PIPE then parseVariableDeclaration fuel tks pos
      else (.ok [], pos)
    | none => (.ok [], pos)
  match varsRes with
  | (.error e, p) => (.error e, p, procs)
  | (.ok vars, p1) =>
    match parseProcDefs fuel tks p1 procs [] with
    | (.error e, p, pr) => (.error e, p, pr)
    | (.ok defs, p2, pr) =>
      match tks[p2]? with
      | some t =>
        if t.kind = .LBRACKET then
          match parseCodeBlock fuel tks p2 with
          | (.error e, p) => (.error e, p, pr)
          | (.ok main, p3) => (.ok ⟨vars, defs, main⟩, p3, pr)
        else (.ok ⟨vars, defs, []⟩, p2, pr)
      | none => (.ok ⟨vars, defs, []⟩, p2, pr)

/-! ## Semantic analysis

`check_semantics` traverses dicts (in key-insertion order), lists and
tuples generically and checks the four per-command rules on every
`('proc_call', name, args)` tuple.  Strings, integers and `None` are
ignored, so of the whole traversal only procedure bodies, the main block,
nested blocks and the `proc_call` rule checks have any effect; the
traversal below visits exactly those, in the same pre-order. -/

/-- `args[i][0] == 'const'` on an expression tuple. -/
def exprIsConst : Expr → Bool
  | .const _ => true
  | _ => false

/-- The four per-command rules applied to one `proc_call` node. -/
def checkCall (name : String) (args : List Expr) : Except String Unit :=
  if name = "face" then
    match args with
    | a :: _ =>
      if exprIsConst a then .ok ()
      else .error
        "Semantic error: 'face' command requires a constant argument (e.g., #north)."
    | [] => .error
        "Semantic error: 'face' command requires a constant argument (e.g., #north)."
  else if name = "turn" then
    match args with
    | a :: _ =>
      if exprIsConst a then .ok ()
      else .error
        "Semantic error: 'turn' command requires a constant argument (e.g., #left)."
    | [] => .error
        "Semantic error: 'turn' command requires a constant argument (e.g., #left)."
  else if name = "put" then
    match args with
    | _ :: b :: _ =>
      if exprIsConst b then .ok ()
      else .error
        "Semantic error: 'put' command requires a constant type argument (e.g., #chips)."
    | _ => .error
        "Semantic error: 'put' command requires a constant type argument (e.g., #chips)."
  else if name = "pick" then
    match args with
    | _ :: b :: _ =>
      if exprIsConst b then .ok ()
      else .error
        "Semantic error: 'pick' command requires a constant type argument (e.g., #balloons)."
    | _ => .error
        "Semantic error: 'pick' command requires a constant type argument (e.g., #balloons)."
  else .ok ()

/-- `check_semantics` on a list of instructions: each element is visited
in order; the per-command rule is applied to every `proc_call` node, and
the traversal recurses into `while` bodies and `if` branches (the only
containers holding further instructions); the first raised error wins.
The fuel bounds the traversal: one unit is spent per instruction visited
and per block entered.  On exhaustion the checker accepts (finds nothing),
so within its fuel it raises exactly where `check_semantics` does; the
validator supplies fuel exceeding the token count, and every instruction
and every block of a parsed program consumes at least one token, so the
exhaustion branch is never reached through `checkSource`. -/
def checkSemB : Nat → List Instr → Except String Unit
  | 0, _ => .ok ()
  | _ + 1, [] => .ok ()
  | fuel + 1, i :: is =>
    let first : Except String Unit :=
      match i with
      | .varDecl _ => .ok ()
      | .assign _ _ => .ok ()
      | .procCall n args => checkCall n args
      | .whileI _ body => checkSemB fuel body
      | .ifI _ thenB elseB =>
        match checkSemB fuel thenB with
        | .error m => .error m
        | .ok _ =>
          match elseB with
          | none => .ok ()
          | some b => checkSemB fuel b
    match first with
    | .error m => .error m
    | .ok _ => checkSemB fuel is

/-- `check_semantics` on the procedure list (bodies in definition order),
same fuel discipline as `checkSemB`. -/
def checkSemProcsB : Nat → List ProcDef → Except String Unit
  | 0, _ => .ok ()
  | _ + 1, [] => .ok ()
  | fuel + 1, d :: ds =>
    match checkSemB fuel d.body with
    | .error m => .error m
    | .ok _ => checkSemProcsB fuel ds

/-- `check_semantics(program)`: the dict is traversed in key-insertion
order — variables (never any effect), then the procedures, then the main
block. -/
def checkSemantics (fuel : Nat) (p : Program) : Except String Unit :=
  match checkSemProcsB fuel p.procedures with
  | .error m => .error m
  | .ok _ => checkSemB fuel p.main

/-! ## Validation (`check_file`)

`check_file` reinitializes the module-level globals, runs the pipeline and
collapses every raised exception to `False`.  The globals are modelled as
an explicit state record; the swallowed exception message is returned
alongside the verdict as the internal diagnostic. -/

/-- The module-level globals `tokens`, `pos`, `variables` (field `vars`),
`procedures`. -/
structure GState where
  tokens : List Token
  pos : Nat
  vars : List String
  procedures : List (String × ProcDef)

/-- Fuel sufficient for the whole parse of a given token list: every loop
iteration and nested call consumes at least one token. -/
def stdFuel (tks : List Token) : Nat :=
  2 * tks.length + 16

/-- The stages of `check_file` after tokenization: parse, the
4-global-variables check, the all-tokens-consumed check, and semantic
analysis; returns the verdict, the swallowed exception message (if any)
and the final global state. -/
def checkTokensSt (tks : List Token) : (Bool × Option String) × GState :=
  match parseProgram (stdFuel tks) tks 0 [] with
  | (.error e, p, pr) => ((false, some e), ⟨tks, p, [], pr⟩)
  | (.ok prog, p, pr) =>
    if prog.vars.length ≠ 4 then
      ((false, some "Global variable declaration must have exactly 4 identifiers."),
        ⟨tks, p, [], pr⟩)
    else if p ≠ tks.length then
      ((false, some "Extra tokens found at the end of the input."),
        ⟨tks, p, [], pr⟩)
    else
      match checkSemantics (stdFuel tks) prog with
      | .error m => ((false, some m), ⟨tks, p, [], pr⟩)
      | .ok _ => ((true, none), ⟨tks, p, [], pr⟩)

/-- `check_file` on already-read file contents, with the globals passed
in and out.  A tokenization error propagates before the assignment
`tokens = tokenize(source_code)` completes, so the incoming state is
returned unchanged in that case. -/
def checkFileSt (st : GState) (src : String) : (Bool × Option String) × GState :=
  match tokenize src with
  | .error e => ((false, some e), st)
  | .ok tks => checkTokensSt tks

/-- The boolean verdict of `check_file` on source text (the globals start
at their module-initialization values; by `checkFileSt_state_irrelevant`
any other start state gives the same verdict). -/
def checkSource (s : String) : Bool :=
  (checkFileSt ⟨[], 0, [], []⟩ s).1.1

/-- `check_file(filename)` at its boundary: `none` models an unreadable or
nonexistent file (the `open`/`read` exception), `some s` a file with
contents `s`. -/
def checkFile : Option String → Bool
  | none => false
  | some s => checkSource s

/-! ## The strict lexer policy (not present in `src/`)

`Modelled from the spec:` the spec's §4.1/§9 describe a second, stricter
lexer variant, "authoritative" per §3, under which only
`#north|south|east|west`, `#left|right|around` and `#chips|balloons` lex
successfully and any other `#name` is a lexical error; no such lexer
exists under `src/` (both `logic.py` and `parser.py` carry the permissive
`HASHID` pattern), so it is modelled here from the spec's words on top of
the embedded scanner. -/

/-- The three fixed constant vocabularies of the strict lexer. -/
def strictVocab : List String :=
  ["#north", "#south", "#east", "#west",
   "#left", "#right", "#around",
   "#chips", "#balloons"]

/-- `Modelled from the spec:` strict tokenization — as the permissive
lexer, except that a `#name` outside the three fixed vocabularies is a
lexical error. -/
def strictTokenize (s : String) : Except String (List Token) :=
  match tokenize s with
  | .error e => .error e
  | .ok ts =>
    match ts.find? (fun t => t.kind == .HASHID && !(strictVocab.contains (tokStr t.val))) with
    | some t => .error ("Lexical error: unknown constant " ++ tokStr t.val
        ++ " on line " ++ toString t.line)
    | none => .ok ts

/-- `Modelled from the spec:` the validator pipeline run with the strict
lexer in place of the permissive one. -/
def checkSourceStrict (s : String) : Bool :=
  match strictTokenize s with
  | .error _ => false
  | .ok tks => (checkTokensSt tks).1.1

/-! ## Derived predicates used by the statements -/

/-- Whether an `Except` carries a result (`check_semantics` did not raise). -/
def isOkB : Except String Unit → Bool
  | .ok _ => true
  | .error _ => false

/-- A `proc_call` node that violates one of the four per-command rules of
`check_semantics`: `face`/`turn` with a missing or non-constant first
argument, `put`/`pick` with fewer than two arguments or a non-constant
second argument. -/
def badCall (name : String) (args : List Expr) : Bool :=
  if name = "face" then
    match args with
    | a :: _ => !exprIsConst a
    | [] => true
  else if name = "turn" then
    match args with
    | a :: _ => !exprIsConst a
    | [] => true
  else if name = "put" then
    match args with
    | _ :: b :: _ => !exprIsConst b
    | _ => true
  else if name = "pick" then
    match args with
    | _ :: b :: _ => !exprIsConst b
    | _ => true
  else false

/-- Whether an instruction list contains (at any depth) a rule-violating
call; same traversal and fuel discipline as `checkSemB`, with exhausted
fuel finding nothing, so that the two stay in lockstep at every fuel
value (`isOkB_checkSemB`): `hasBadB` is true only on an actual
rule-violating call within the fuel bound. -/
def hasBadB : Nat → List Instr → Bool
  | 0, _ => false
  | _ + 1, [] => false
  | fuel + 1, i :: is =>
    (match i with
     | .varDecl _ => false
     | .assign _ _ => false
     | .procCall n args => badCall n args
     | .whileI _ body => hasBadB fuel body
     | .ifI _ thenB elseB =>
       hasBadB fuel thenB ||
         (match elseB with
          | none => false
          | some b => hasBadB fuel b)) || hasBadB fuel is

/-- Whether some procedure body contains a rule-violating call. -/
def hasBadProcsB : Nat → List ProcDef → Bool
  | 0, _ => false
  | _ + 1, [] => false
  | fuel + 1, d :: ds => hasBadB fuel d.body || hasBadProcsB fuel ds

/-- Whether a program contains a rule-violating call anywhere (within the
given traversal fuel). -/
def hasBad (fuel : Nat) (p : Program) : Bool :=
  hasBadProcsB fuel p.procedures || hasBadB fuel p.main

/-- The characters the lexer discards: the `SKIP` class and newline. -/
def isWsChar (c : Char) : Bool :=
  c = ' ' || c = '\t' || c = '\n'

/-- The matches whose spans are emitted as tokens (all but the discarded
`SKIP` and `NEWLINE` matches). -/
def keptMatch (m : RawKind × List Char) : Bool :=
  match m.1 with
  | .SKIP => false
  | .NEWLINE => false
  | _ => true

/-- The source spans (`mo.group()`) of the emitted tokens of an input. -/
def tokenSpans (s : String) : List (List Char) :=
  ((scan s.data).filter keptMatch).map Prod.snd

/-- The characters the round-trip property keeps (everything the lexer
does not discard). -/
def nonWsChar (c : Char) : Bool :=
  !isWsChar c

/-- The token list of an input whose tokenization succeeds. -/
def toksOf (s : String) : List Token :=
  (tokenize s).toOption.getD []

/-- Whether tokenization raised. -/
def isErrorB : Except String (List Token) → Bool
  | .ok _ => false
  | .error _ => true

/-- The kind of the token at an index, if any. -/
def tokKindAt (tks : List Token) (i : Nat) : Option RawKind :=
  (tks[i]?).map Token.kind

/-! ## Lemmas -/

theorem isOkB_checkCall (n : String) (args : List Expr) :
    isOkB (checkCall n args) = !badCall n args := by
  unfold checkCall badCall
  by_cases h1 : n = "face"
  · simp only [if_pos h1]
    cases args with
    | nil => rfl
    | cons a t => cases ha : exprIsConst a <;> simp [ha, isOkB]
  · simp only [if_neg h1]
    by_cases h2 : n = "turn"
    · simp only [if_pos h2]
      cases args with
      | nil => rfl
      | cons a t => cases ha : exprIsConst a <;> simp [ha, isOkB]
    · simp only [if_neg h2]
      by_cases h3 : n = "put"
      · simp only [if_pos h3]
        cases args with
        | nil => rfl
        | cons a t =>
          cases t with
          | nil => rfl
          | cons b t2 => cases hb : exprIsConst b <;> simp [hb, isOkB]
      · simp only [if_neg h3]
        by_cases h4 : n = "pick"
        · simp only [if_pos h4]
          cases args with
          | nil => rfl
          | cons a t =>
            cases t with
            | nil => rfl
            | cons b t2 => cases hb : exprIsConst b <;> simp [hb, isOkB]
        · simp [if_neg h4, isOkB]

/-- At every fuel value the semantic checker fails exactly on the
instruction lists that `hasBadB` flags. -/
theorem isOkB_checkSemB : ∀ fuel : Nat, ∀ b : List Instr,
    isOkB (checkSemB fuel b) = !hasBadB fuel b := by
  intro fuel
  induction fuel with
  | zero => intro b; rfl
  | succ fuel ih =>
    intro b
    cases b with
    | nil => rfl
    | cons i is =>
      simp only [checkSemB, hasBadB]
      cases i with
      | varDecl ids => simpa using ih is
      | assign nm e => simpa using ih is
      | procCall nm args =>
        have hc := isOkB_checkCall nm args
        cases h : checkCall nm args with
        | error m =>
          rw [h] at hc
          have hbad : badCall nm args = true := by
            cases hx : badCall nm args
            · rw [hx] at hc; simp [isOkB] at hc
            · rfl
          simp [h, isOkB, hbad]
        | ok u =>
          rw [h] at hc
          have hbad : badCall nm args = false := by
            cases hx : badCall nm args
            · rfl
            · rw [hx] at hc; simp [isOkB] at hc
          simpa [h, hbad] using ih is
      | whileI c body =>
        have hb := ih body
        cases h : checkSemB fuel body with
        | error m =>
          rw [h] at hb
          have hbad : hasBadB fuel body = true := by
            cases hx : hasBadB fuel body
            · rw [hx] at hb; simp [isOkB] at hb
            · rfl
          simp [h, isOkB, hbad]
        | ok u =>
          rw [h] at hb
          have hbad : hasBadB fuel body = false := by
            cases hx : hasBadB fuel body
            · rfl
            · rw [hx] at hb; simp [isOkB] at hb
          simpa [h, hbad] using ih is
      | ifI c thenB elseB =>
        have ht := ih thenB
        cases h : checkSemB fuel thenB with
        | error m =>
          rw [h] at ht
          have hbad : hasBadB fuel thenB = true := by
            cases hx : hasBadB fuel thenB
            · rw [hx] at ht; simp [isOkB] at ht
            · rfl
          simp [h, isOkB, hbad]
        | ok u =>
          rw [h] at ht
          have hbad : hasBadB fuel thenB = false := by
            cases hx : hasBadB fuel thenB
            · rfl
            · rw [hx] at ht; simp [isOkB] at ht
          cases elseB with
          | none => simpa [h, hbad] using ih is
          | some b =>
            have hb2 := ih b
            cases h2 : checkSemB fuel b with
            | error m2 =>
              rw [h2] at hb2
              have hbad2 : hasBadB fuel b = true := by
                cases hx : hasBadB fuel b
                · rw [hx] at hb2; simp [isOkB] at hb2
                · rfl
              simp [h, h2, isOkB, hbad, hbad2]
            | ok u2 =>
              rw [h2] at hb2
              have hbad2 : hasBadB fuel b = false := by
                cases hx : hasBadB fuel b
                · rfl
                · rw [hx] at hb2; simp [isOkB] at hb2
              simpa [h, h2, hbad, hbad2] using ih is

/-- At every fuel value the procedure-list traversal of the checker fails
exactly on the lists flagged by `hasBadProcsB`. -/
theorem isOkB_checkSemProcsB : ∀ fuel : Nat, ∀ ds : List ProcDef,
    isOkB (checkSemProcsB fuel ds) = !hasBadProcsB fuel ds := by
  intro fuel
  induction fuel with
  | zero => intro ds; rfl
  | succ fuel ih =>
    intro ds
    cases ds with
    | nil => rfl
    | cons d rest =>
      simp only [checkSemProcsB, hasBadProcsB]
      have hd := isOkB_checkSemB fuel d.body
      cases h : checkSemB fuel d.body with
      | error m =>
        rw [h] at hd
        have hbad : hasBadB fuel d.body = true := by
          cases hx : hasBadB fuel d.body
          · rw [hx] at hd; simp [isOkB] at hd
          · rfl
        simp [isOkB, hbad]
      | ok u =>
        rw [h] at hd
        have hbad : hasBadB fuel d.body = false := by
          cases hx : hasBadB fuel d.body
          · rfl
          · rw [hx] at hd; simp [isOkB] at hd
        simpa [hbad] using ih rest

/-- The semantic checker raises somewhere in a program exactly when the
program contains a rule-violating call (at every fuel value). -/
theorem isOkB_checkSemantics (fuel : Nat) (p : Program) :
    isOkB (checkSemantics fuel p) = !hasBad fuel p := by
  have hp := isOkB_checkSemProcsB fuel p.procedures
  have hm := isOkB_checkSemB fuel p.main
  simp only [checkSemantics, hasBad]
  cases h : checkSemProcsB fuel p.procedures with
  | error m =>
    rw [h] at hp
    have hbad : hasBadProcsB fuel p.procedures = true := by
      cases hb : hasBadProcsB fuel p.procedures
      · rw [hb] at hp; simp [isOkB] at hp
      · rfl
    simp [isOkB, hbad]
  | ok u =>
    rw [h] at hp
    have hbad : hasBadProcsB fuel p.procedures = false := by
      cases hb : hasBadProcsB fuel p.procedures
      · rfl
      · rw [hb] at hp; simp [isOkB] at hp
    simp [hbad, hm]

/-- Unfolding of the verdict of `check_file` once tokenization and parsing
have succeeded: the three remaining stages in order. -/
theorem checkSource_eq {s : String} {tks : List Token} {prog : Program}
    {pp : Nat} {pr : List (String × ProcDef)}
    (h1 : tokenize s = .ok tks)
    (h2 : parseProgram (stdFuel tks) tks 0 [] = (.ok prog, pp, pr)) :
    checkSource s =
      if prog.vars.length ≠ 4 then false
      else if pp ≠ tks.length then false
      else isOkB (checkSemantics (stdFuel tks) prog) := by
  simp only [checkSource, checkFileSt, h1, checkTokensSt, h2]
  by_cases h4 : prog.vars.length ≠ 4
  · simp [h4]
  · by_cases hp : pp ≠ tks.length
    · simp [h4, hp]
    · cases h : checkSemantics (stdFuel tks) prog <;> simp [h4, hp, isOkB, h]

/-- The verdict and diagnostic of `check_file` do not depend on the
incoming values of the module-level globals: every field consulted is
reinitialized before use. -/
theorem checkFileSt_fst_indep (st st' : GState) (s : String) :
    (checkFileSt st s).1 = (checkFileSt st' s).1 := by
  unfold checkFileSt
  cases h : tokenize s <;> simp

/-- `scanAux` emits nothing on an exhausted input, whatever the fuel. -/
theorem scanAux_nil (fuel : Nat) : scanAux fuel [] = [] := by
  cases fuel <;> rfl

/-- The three characters the lexer discards. -/
theorem isWsChar_cases {c : Char} (h : isWsChar c = true) :
    c = ' ' ∨ c = '\t' ∨ c = '\n' := by
  simp [isWsChar] at h
  tauto

/-- An identifier-start character is not discarded. -/
theorem identStart_not_ws {c : Char} (h : isIdentStart c = true) :
    isWsChar c = false := by
  cases hw : isWsChar c
  · rfl
  · rcases isWsChar_cases hw with rfl | rfl | rfl <;> exact absurd h (by decide)

/-- An identifier character is not discarded. -/
theorem identChar_not_ws {c : Char} (h : isIdentChar c = true) :
    isWsChar c = false := by
  cases hw : isWsChar c
  · rfl
  · rcases isWsChar_cases hw with rfl | rfl | rfl <;> exact absurd h (by decide)

/-- A digit is not discarded. -/
theorem digit_not_ws {c : Char} (h : c.isDigit = true) : isWsChar c = false := by
  cases hw : isWsChar c
  · rfl
  · rcases isWsChar_cases hw with rfl | rfl | rfl <;> exact absurd h (by decide)

/-- A character that is neither space, tab nor newline is kept. -/
theorem not_ws_of {c : Char} (hst : isSpaceTab c = false) (hnl : c ≠ '\n') :
    isWsChar c = false := by
  simp [isSpaceTab] at hst
  simp [isWsChar, hst.1, hst.2, hnl]

/-- Filtering a kept character through the round-trip filter. -/
theorem filter_cons_nonws (c : Char) (cs : List Char) (hc : isWsChar c = false) :
    (c :: cs).filter nonWsChar = c :: cs.filter nonWsChar := by
  simp [List.filter_cons, nonWsChar, hc]

/-- Filtering a discarded character through the round-trip filter. -/
theorem filter_cons_ws (c : Char) (cs : List Char) (hc : isWsChar c = true) :
    (c :: cs).filter nonWsChar = cs.filter nonWsChar := by
  simp [List.filter_cons, nonWsChar, hc]

/-- Filtering a kept match through `keptMatch`. -/
theorem filter_kept_cons (k : RawKind) (lx : List Char)
    (ms : List (RawKind × List Char)) (hk : keptMatch (k, lx) = true) :
    ((k, lx) :: ms).filter keptMatch = (k, lx) :: ms.filter keptMatch := by
  simp [List.filter_cons, hk]

/-- Filtering a discarded match through `keptMatch`. -/
theorem filter_unkept_cons (k : RawKind) (lx : List Char)
    (ms : List (RawKind × List Char)) (hk : keptMatch (k, lx) = false) :
    ((k, lx) :: ms).filter keptMatch = ms.filter keptMatch := by
  simp [List.filter_cons, hk]

/-- A greedy non-whitespace munch commutes with the round-trip filter:
the munched span survives the filter whole, the rest is filtered. -/
theorem munch_filter (p : Char → Bool)
    (hp : ∀ x, p x = true → isWsChar x = false) (cs : List Char) :
    (cs.takeWhile p) ++ (cs.dropWhile p).filter nonWsChar =
      cs.filter nonWsChar := by
  have hsplit : cs.filter nonWsChar =
      (cs.takeWhile p).filter nonWsChar ++ (cs.dropWhile p).filter nonWsChar := by
    rw [← List.filter_append, List.takeWhile_append_dropWhile]
  rw [hsplit]
  congr 1
  exact (List.filter_eq_self.mpr
    (fun a ha => by simp [nonWsChar, hp a (List.mem_takeWhile_imp ha)])).symm

/-- A greedy space/tab munch disappears through the round-trip filter. -/
theorem munch_ws_filter (cs : List Char) :
    (cs.dropWhile isSpaceTab).filter nonWsChar = cs.filter nonWsChar := by
  have hsplit : cs.filter nonWsChar =
      (cs.takeWhile isSpaceTab).filter nonWsChar ++
        (cs.dropWhile isSpaceTab).filter nonWsChar := by
    rw [← List.filter_append, List.takeWhile_append_dropWhile]
  rw [hsplit]
  have hnil : (cs.takeWhile isSpaceTab).filter nonWsChar = [] := by
    refine List.filter_eq_nil_iff.mpr (fun a ha => ?_)
    have hws : isWsChar a = true := by
      have := List.mem_takeWhile_imp ha
      rcases (by simpa [isSpaceTab] using this : a = ' ' ∨ a = '\t') with rfl | rfl <;>
        decide
    simp [nonWsChar, hws]
  rw [hnil, List.nil_append]

/-- Spans round-trip: concatenating the spans of the matches the lexer
keeps reproduces exactly the non-whitespace content of the input, for any
sufficient fuel. -/
theorem spans_concat : ∀ fuel : Nat, ∀ cs : List Char, cs.length ≤ fuel →
    (((scanAux fuel cs).filter keptMatch).map Prod.snd).flatten =
      cs.filter nonWsChar := by
  intro fuel
  induction fuel with
  | zero =>
    intro cs h
    cases cs with
    | nil => rfl
    | cons c cs' => simp at h
  | succ fuel ih =>
    intro cs hlen
    cases cs with
    | nil => rfl
    | cons c cs' =>
      have hcs' : cs'.length ≤ fuel := by simp at hlen; omega
      by_cases h1 : c = ':'
      · subst h1
        cases cs' with
        | nil =>
          rw [show scanAux (fuel + 1) [':'] =
            (.COLON, [':']) :: scanAux fuel [] from rfl, scanAux_nil]
          decide
        | cons d rest =>
          have hrest : rest.length ≤ fuel := by simp at hlen; omega
          by_cases hd : d = '='
          · subst hd
            rw [show scanAux (fuel + 1) (':' :: '=' :: rest) =
              (.ASSIGN, [':', '=']) :: scanAux fuel rest from rfl,
              filter_kept_cons .ASSIGN [':', '='] _ rfl, List.map_cons,
              List.flatten_cons, ih rest hrest,
              filter_cons_nonws ':' _ (by decide),
              filter_cons_nonws '=' _ (by decide)]
            rfl
          · rw [show scanAux (fuel + 1) (':' :: d :: rest) =
              (match d :: rest with
               | '=' :: r => (.ASSIGN, [':', '=']) :: scanAux fuel r
               | _ => (.COLON, [':']) :: scanAux fuel (d :: rest)) from rfl]
            have hm : (match d :: rest with
               | '=' :: r => (.ASSIGN, [':', '=']) :: scanAux fuel r
               | _ => (.COLON, [':']) :: scanAux fuel (d :: rest)) =
                (.COLON, [':']) :: scanAux fuel (d :: rest) := by
              split
              · rename_i heq
                rw [List.cons.injEq] at heq
                exact absurd heq.1 hd
              · rfl
            rw [hm, filter_kept_cons .COLON [':'] _ rfl, List.map_cons,
              List.flatten_cons, ih (d :: rest) hcs',
              filter_cons_nonws ':' _ (by decide)]
            rfl
      · by_cases h2 : c = '#'
        · subst h2
          cases cs' with
          | nil =>
            rw [show scanAux (fuel + 1) ['#'] =
              (.MISMATCH, ['#']) :: scanAux fuel [] from rfl, scanAux_nil]
            decide
          | cons d rest =>
            have hrest : rest.length ≤ fuel := by simp at hlen; omega
            by_cases hds : isIdentStart d = true
            · rw [show scanAux (fuel + 1) ('#' :: d :: rest) =
                (if isIdentStart d then
                  (.HASHID, '#' :: d :: rest.takeWhile isIdentChar) ::
                    scanAux fuel (rest.dropWhile isIdentChar)
                 else (.MISMATCH, ['#']) :: scanAux fuel (d :: rest)) from rfl,
                if_pos hds]
              have hdrop : (rest.dropWhile isIdentChar).length ≤ fuel :=
                le_trans (List.dropWhile_sublist _).length_le hrest
              rw [filter_kept_cons .HASHID
                  ('#' :: d :: rest.takeWhile isIdentChar) _ rfl,
                List.map_cons, List.flatten_cons, ih _ hdrop,
                filter_cons_nonws '#' _ (by decide),
                filter_cons_nonws d _ (identStart_not_ws hds)]
              simp only [List.cons_append, List.cons.injEq, true_and]
              exact munch_filter isIdentChar (fun x hx => identChar_not_ws hx) rest
            · rw [show scanAux (fuel + 1) ('#' :: d :: rest) =
                (if isIdentStart d then
                  (.HASHID, '#' :: d :: rest.takeWhile isIdentChar) ::
                    scanAux fuel (rest.dropWhile isIdentChar)
                 else (.MISMATCH, ['#']) :: scanAux fuel (d :: rest)) from rfl,
                if_neg hds, filter_kept_cons .MISMATCH ['#'] _ rfl,
                List.map_cons, List.flatten_cons, ih (d :: rest) hcs',
                filter_cons_nonws '#' _ (by decide)]
              rfl
        · by_cases h3 : c.isDigit = true
          · simp only [scanAux, if_neg h1, if_neg h2, if_pos h3]
            have hdrop : (cs'.dropWhile Char.isDigit).length ≤ fuel :=
              le_trans (List.dropWhile_sublist _).length_le hcs'
            rw [filter_kept_cons .NUMBER (c :: cs'.takeWhile Char.isDigit) _ rfl,
              List.map_cons, List.flatten_cons,
              ih _ hdrop, filter_cons_nonws c _ (digit_not_ws h3)]
            simp only [List.cons_append, List.cons.injEq, true_and]
            exact munch_filter Char.isDigit (fun x hx => digit_not_ws hx) cs'
          · by_cases h4 : isIdentStart c = true
            · simp only [scanAux, if_neg h1, if_neg h2, if_neg h3, if_pos h4]
              have hdrop : (cs'.dropWhile isIdentChar).length ≤ fuel :=
                le_trans (List.dropWhile_sublist _).length_le hcs'
              rw [filter_kept_cons .ID (c :: cs'.takeWhile isIdentChar) _ rfl,
                List.map_cons, List.flatten_cons,
                ih _ hdrop, filter_cons_nonws c _ (identStart_not_ws h4)]
              simp only [List.cons_append, List.cons.injEq, true_and]
              exact munch_filter isIdentChar (fun x hx => identChar_not_ws hx) cs'
            · by_cases h5 : c = '|'
              · subst h5
                rw [show scanAux (fuel + 1) ('|' :: cs') =
                  (.PIPE, ['|']) :: scanAux fuel cs' from rfl,
                  filter_kept_cons .PIPE ['|'] _ rfl, List.map_cons,
                  List.flatten_cons, ih cs' hcs',
                  filter_cons_nonws '|' _ (by decide)]
                rfl
              · by_cases h6 : c = '['
                · subst h6
                  rw [show scanAux (fuel + 1) ('[' :: cs') =
                    (.LBRACKET, ['[']) :: scanAux fuel cs' from rfl,
                    filter_kept_cons .LBRACKET ['['] _ rfl, List.map_cons,
                    List.flatten_cons, ih cs' hcs',
                    filter_cons_nonws '[' _ (by decide)]
                  rfl
                · by_cases h7 : c = ']'
                  · subst h7
                    rw [show scanAux (fuel + 1) (']' :: cs') =
                      (.RBRACKET, [']']) :: scanAux fuel cs' from rfl,
                      filter_kept_cons .RBRACKET [']'] _ rfl, List.map_cons,
                      List.flatten_cons, ih cs' hcs',
                      filter_cons_nonws ']' _ (by decide)]
                    rfl
                  · by_cases h8 : c = '.'
                    · subst h8
                      rw [show scanAux (fuel + 1) ('.' :: cs') =
                        (.DOT, ['.']) :: scanAux fuel cs' from rfl,
                        filter_kept_cons .DOT ['.'] _ rfl, List.map_cons,
                        List.flatten_cons, ih cs' hcs',
                        filter_cons_nonws '.' _ (by decide)]
                      rfl
                    · by_cases h9 : c = ','
                      · subst h9
                        rw [show scanAux (fuel + 1) (',' :: cs') =
                          (.COMMA, [',']) :: scanAux fuel cs' from rfl,
                          filter_kept_cons .COMMA [','] _ rfl, List.map_cons,
                          List.flatten_cons, ih cs' hcs',
                          filter_cons_nonws ',' _ (by decide)]
                        rfl
                      · by_cases h10 : isSpaceTab c = true
                        · simp only [scanAux, if_neg h1, if_neg h2, if_neg h3,
                            if_neg h4, if_neg h5, if_neg h6, if_neg h7,
                            if_neg h8, if_neg h9, if_pos h10]
                          have hdrop : (cs'.dropWhile isSpaceTab).length ≤ fuel :=
                            le_trans (List.dropWhile_sublist _).length_le hcs'
                          rw [filter_unkept_cons .SKIP
                              (c :: cs'.takeWhile isSpaceTab) _ rfl,
                            ih _ hdrop, munch_ws_filter,
                            filter_cons_ws c _ (by
                              rcases (by simpa [isSpaceTab] using h10 :
                                  c = ' ' ∨ c = '\t') with rfl | rfl <;> decide)]
                        · by_cases h11 : c = '\n'
                          · subst h11
                            rw [show scanAux (fuel + 1) ('\n' :: cs') =
                              (.NEWLINE, ['\n']) :: scanAux fuel cs' from rfl,
                              filter_unkept_cons .NEWLINE ['\n'] _ rfl,
                              ih cs' hcs', filter_cons_ws '\n' _ (by decide)]
                          · simp only [scanAux, if_neg h1, if_neg h2, if_neg h3,
                              if_neg h4, if_neg h5, if_neg h6, if_neg h7,
                              if_neg h8, if_neg h9, if_neg h10, if_neg h11]
                            rw [filter_kept_cons .MISMATCH [c] _ rfl,
                              List.map_cons, List.flatten_cons, ih cs' hcs',
                              filter_cons_nonws c _ (not_ws_of
                                (by cases hb : isSpaceTab c
                                    · rfl
                                    · exact absurd hb h10) h11)]
                            rfl

/-- `tokenize` emits exactly one token per kept match. -/
theorem tokensOfScan_length : ∀ ms : List (RawKind × List Char),
    ∀ l o ls : Nat, ∀ ts : List Token, tokensOfScan ms l o ls = .ok ts →
    ts.length = (ms.filter keptMatch).length := by
  intro ms
  induction ms with
  | nil =>
    intro l o ls ts h
    simp only [tokensOfScan] at h
    cases h
    rfl
  | cons m rest ih =>
    intro l o ls ts h
    obtain ⟨k, lx⟩ := m
    cases k <;> simp only [tokensOfScan] at h
    case SKIP => simpa [List.filter_cons, keptMatch] using ih _ _ _ _ h
    case NEWLINE => simpa [List.filter_cons, keptMatch] using ih _ _ _ _ h
    all_goals
      first
      | (cases hrec : tokensOfScan rest l (o + lx.length) ls with
         | error e => rw [hrec] at h; cases h
         | ok ts2 =>
           rw [hrec] at h
           cases h
           simpa [List.filter_cons, keptMatch] using ih _ _ _ _ hrec)
      | cases h

/-- All-whitespace inputs scan to discarded matches only. -/
theorem scanAux_ws (fuel : Nat) : ∀ cs : List Char,
    (∀ c ∈ cs, c = ' ' ∨ c = '\t' ∨ c = '\n') →
    ∀ m ∈ scanAux fuel cs, m.1 = RawKind.SKIP ∨ m.1 = RawKind.NEWLINE := by
  induction fuel with
  | zero =>
    intro cs h m hm
    simp [scanAux] at hm
  | succ fuel ih =>
    intro cs h m hm
    cases cs with
    | nil => simp [scanAux_nil] at hm
    | cons c cs' =>
      have hsub : ∀ x ∈ cs'.dropWhile isSpaceTab,
          x = ' ' ∨ x = '\t' ∨ x = '\n' :=
        fun x hx => h x (List.mem_cons_of_mem _
          ((List.dropWhile_sublist _).subset hx))
      have htail : ∀ x ∈ cs', x = ' ' ∨ x = '\t' ∨ x = '\n' :=
        fun x hx => h x (List.mem_cons_of_mem _ hx)
      rcases h c (List.mem_cons_self _ _) with rfl | rfl | rfl
      · rw [show scanAux (fuel + 1) (' ' :: cs') =
          (.SKIP, ' ' :: cs'.takeWhile isSpaceTab) ::
            scanAux fuel (cs'.dropWhile isSpaceTab) from rfl] at hm
        rcases List.mem_cons.mp hm with rfl | hm'
        · left; rfl
        · exact ih _ hsub m hm'
      · rw [show scanAux (fuel + 1) ('\t' :: cs') =
          (.SKIP, '\t' :: cs'.takeWhile isSpaceTab) ::
            scanAux fuel (cs'.dropWhile isSpaceTab) from rfl] at hm
        rcases List.mem_cons.mp hm with rfl | hm'
        · left; rfl
        · exact ih _ hsub m hm'
      · rw [show scanAux (fuel + 1) ('\n' :: cs') =
          (.NEWLINE, ['\n']) :: scanAux fuel cs' from rfl] at hm
        rcases List.mem_cons.mp hm with rfl | hm'
        · right; rfl
        · exact ih _ htail m hm'

/-- Discarded-only match sequences produce the empty token list. -/
theorem tokensOfScan_ws : ∀ ms : List (RawKind × List Char),
    (∀ m ∈ ms, m.1 = RawKind.SKIP ∨ m.1 = RawKind.NEWLINE) →
    ∀ l o ls : Nat, tokensOfScan ms l o ls = .ok [] := by
  intro ms
  induction ms with
  | nil => intro h l o ls; rfl
  | cons m rest ih =>
    intro h l o ls
    obtain ⟨k, lx⟩ := m
    have htail := fun m hm => h m (List.mem_cons_of_mem _ hm)
    rcases h _ (List.mem_cons_self _ _) with hk | hk <;>
      simp only at hk <;> subst hk <;>
      simp only [tokensOfScan] <;> exact ih htail _ _ _

/-! ## Claims -/

/-- C6: validating the same source text twice yields the same verdict and
the same diagnostic: a second `check_file` call, run on the global state
the first call left behind, returns exactly what the first call returned —
no hidden state leaks through the module-level `tokens`/`pos`/`variables`/
`procedures` globals, whatever state they start in. -/
theorem claim6_idempotent (st : GState) (s : String) :
    (checkFileSt ((checkFileSt st s).2) s).1 = (checkFileSt st s).1 :=
  checkFileSt_fst_indep _ st s

/-- C3: for every program that lexes and parses successfully, a global
variable count different from 4 makes `check_file` return false; with
exactly 4 the structural check passes and the verdict is decided solely by
the remaining two stages (full consumption and semantic analysis). -/
theorem claim3_global_arity (s : String) {tks : List Token} {prog : Program}
    {pp : Nat} {pr : List (String × ProcDef)}
    (h1 : tokenize s = .ok tks)
    (h2 : parseProgram (stdFuel tks) tks 0 [] = (.ok prog, pp, pr)) :
    (prog.vars.length ≠ 4 → checkSource s = false) ∧
    (prog.vars.length = 4 →
      checkSource s =
        (decide (pp = tks.length) && isOkB (checkSemantics (stdFuel tks) prog))) := by
  have he := checkSource_eq h1 h2
  constructor
  · intro h4
    rw [he]
    simp [h4]
  · intro h4
    rw [he]
    by_cases hp : pp = tks.length <;> simp [h4, hp]

/-- Witness for C3 at concrete inputs: three globals are rejected, and
with four globals the same program shape passes the whole pipeline. -/
theorem claim3_witness :
    checkSource "| a b c | [ ]" = false ∧
    checkSource "| a b c d | [ ]" = true := by
  constructor
  · exact (claim3_global_arity "| a b c | [ ]" rfl rfl).1 (by decide)
  · have h := (claim3_global_arity "| a b c d | [ ]" rfl rfl).2 (by decide)
    rw [h]
    decide

/-- C7: if top-level parsing completes without consuming every token,
`check_file` returns false; when the global count check is passed, the
diagnostic is precisely the extra-tokens condition. -/
theorem claim7_extra_tokens (s : String) {tks : List Token} {prog : Program}
    {pp : Nat} {pr : List (String × ProcDef)}
    (h1 : tokenize s = .ok tks)
    (h2 : parseProgram (stdFuel tks) tks 0 [] = (.ok prog, pp, pr))
    (h3 : pp ≠ tks.length) :
    checkSource s = false ∧
    (prog.vars.length = 4 →
      (checkFileSt ⟨[], 0, [], []⟩ s).1 =
        (false, some "Extra tokens found at the end of the input.")) := by
  constructor
  · rw [checkSource_eq h1 h2]
    by_cases h4 : prog.vars.length ≠ 4 <;> simp [h4, h3]
  · intro h4
    simp only [checkFileSt, h1, checkTokensSt, h2]
    simp [h4, h3]

/-- Witness for C7: a trailing `.` after the main block is left unconsumed
and the program is rejected with the extra-tokens diagnostic. -/
theorem claim7_witness :
    checkSource "| a b c d | [ ] ." = false ∧
    (checkFileSt ⟨[], 0, [], []⟩ "| a b c d | [ ] .").1 =
      (false, some "Extra tokens found at the end of the input.") := by
  constructor
  · exact (claim7_extra_tokens "| a b c d | [ ] ." rfl rfl (by decide)).1
  · exact (claim7_extra_tokens "| a b c d | [ ] ." rfl rfl (by decide)).2 (by decide)

/-- C9: `check_file` is total at its boundary: an unreadable file yields
false, a readable one is judged by its contents, and every failing stage —
lexical error, syntax error, wrong global count, unconsumed tokens, or a
semantic error — yields the return value false. -/
theorem claim9_total :
    checkFile none = false ∧
    (∀ s, checkFile (some s) = checkSource s) ∧
    (∀ s e, tokenize s = .error e → checkSource s = false) ∧
    (∀ s tks e p pr, tokenize s = .ok tks →
      parseProgram (stdFuel tks) tks 0 [] = (.error e, p, pr) →
      checkSource s = false) ∧
    (∀ s tks prog p pr, tokenize s = .ok tks →
      parseProgram (stdFuel tks) tks 0 [] = (.ok prog, p, pr) →
      (prog.vars.length ≠ 4 ∨ p ≠ tks.length ∨
        isOkB (checkSemantics (stdFuel tks) prog) = false) →
      checkSource s = false) := by
  refine ⟨rfl, fun s => rfl, ?_, ?_, ?_⟩
  · intro s e h
    simp [checkSource, checkFileSt, h]
  · intro s tks e p pr h1 h2
    simp [checkSource, checkFileSt, h1, checkTokensSt, h2]
  · intro s tks prog p pr h1 h2 h3
    rw [checkSource_eq h1 h2]
    rcases h3 with h4 | hp | hsem
    · simp [h4]
    · by_cases h4 : prog.vars.length ≠ 4 <;> simp [h4, hp]
    · by_cases h4 : prog.vars.length ≠ 4
      · simp [h4]
      · by_cases hp : p ≠ tks.length <;> simp [h4, hp, hsem]

/-- Witness for C9: the missing-file case and a lexical failure both
return false through `check_file`. -/
theorem claim9_witness :
    checkFile none = false ∧ checkSource "?" = false :=
  ⟨claim9_total.1,
    claim9_total.2.2.1 "?" "Unexpected character '?' on line 1" rfl⟩

/-- C1 counterexample: `#left` is a Turn-category constant, not a
Direction, yet `| a b c d | [ face: #left. ]` lexes, parses to a `face`
call whose argument is the constant `#left`, and is accepted by
`check_file` — the claim says such a wrong-category argument must make
`check_file` return false. -/
theorem claim1_counterexample :
    ("#left" ∈ ["#left", "#right", "#around"] ∧
      "#left" ∉ ["#north", "#south", "#east", "#west"]) ∧
    tokenize "| a b c d | [ face: #left. ]" =
      .ok (toksOf "| a b c d | [ face: #left. ]") ∧
    (parseProgram (stdFuel (toksOf "| a b c d | [ face: #left. ]"))
        (toksOf "| a b c d | [ face: #left. ]") 0 []).1 =
      .ok ⟨["a", "b", "c", "d"], [], [.procCall "face" [.const "#left"]]⟩ ∧
    checkSource "| a b c d | [ face: #left. ]" = true :=
  ⟨by decide, rfl, rfl, by decide⟩

/-- C1 amended: for every program that lexes and parses successfully and
calls one of `face`/`turn`/`put`/`pick` with a missing or non-constant
argument (`face`/`turn`: no first argument, or a first argument that is
not a `Const`; `put`/`pick`: fewer than two arguments, or a second
argument that is not a `Const`), the semantic checker raises a semantic
error and `check_file` returns false, while the same program passes lexing
and parsing; the literal's vocabulary is not inspected, so a `Const` of
the wrong category is accepted (see the counterexample). -/
theorem claim1_amended (s : String) {tks : List Token} {prog : Program}
    {pp : Nat} {pr : List (String × ProcDef)}
    (h1 : tokenize s = .ok tks)
    (h2 : parseProgram (stdFuel tks) tks 0 [] = (.ok prog, pp, pr))
    (h3 : hasBad (stdFuel tks) prog = true) :
    isOkB (checkSemantics (stdFuel tks) prog) = false ∧
    checkSource s = false := by
  have hic := isOkB_checkSemantics (stdFuel tks) prog
  rw [h3] at hic
  simp only [Bool.not_true] at hic
  refine ⟨hic, ?_⟩
  rw [checkSource_eq h1 h2]
  by_cases h4 : prog.vars.length ≠ 4
  · simp [h4]
  · by_cases hp : pp ≠ tks.length
    · simp [h4, hp]
    · simp [h4, hp, hic]

/-- Witness for C1 (amended) at `face` applied to the number literal `5`:
the checker raises and the program is rejected. -/
theorem claim1_witness :
    isOkB (checkSemantics (stdFuel (toksOf "| a b c d | [ face: 5. ]"))
      ⟨["a", "b", "c", "d"], [], [.procCall "face" [.num 5]]⟩) = false ∧
    checkSource "| a b c d | [ face: 5. ]" = false :=
  claim1_amended "| a b c d | [ face: 5. ]" rfl rfl (by decide)

/-- C2: under the strict lexer policy (modelled from the spec — no strict
lexer exists under `src/`), an input whose permissive tokenization
contains a `#name` constant outside the three fixed vocabularies fails to
tokenize strictly, and the whole strict pipeline rejects the program. -/
theorem claim2_strict_lexer (s : String) {ts : List Token} (t : Token)
    (h1 : tokenize s = .ok ts) (h2 : t ∈ ts) (h3 : t.kind = .HASHID)
    (h4 : strictVocab.contains (tokStr t.val) = false) :
    isErrorB (strictTokenize s) = true ∧ checkSourceStrict s = false := by
  cases hf : ts.find?
      (fun u => u.kind == .HASHID && !(strictVocab.contains (tokStr u.val))) with
  | none =>
    exfalso
    have hnone := List.find?_eq_none.mp hf t h2
    have hmem : tokStr t.val ∉ strictVocab := by simpa using h4
    simp [h3] at hnone
    exact hmem hnone
  | some u =>
    constructor
    · simp only [strictTokenize, h1]
      rw [hf]
      simp [isErrorB]
    · simp only [checkSourceStrict, strictTokenize, h1]
      rw [hf]

/-- Witness for C2: `#purple` lexes under the permissive lexer but is
rejected by the strict one, and the strict pipeline rejects the program. -/
theorem claim2_witness :
    isErrorB (strictTokenize "| a b c d | [ face: #purple. ]") = true ∧
    checkSourceStrict "| a b c d | [ face: #purple. ]" = false :=
  claim2_strict_lexer "| a b c d | [ face: #purple. ]"
    ⟨.HASHID, .str "#purple", 1, 20⟩ rfl (by decide) rfl (by decide)

/-- C4 counterexample: a procedure call at the very end of the token
stream parses successfully with no trailing `.` even though the next token
is not `]` (there is no next token at all) — the claim allows omitting the
`.` only before `]`. -/
theorem claim4_counterexample :
    tokenize "foo" = .ok [⟨.ID, .str "foo", 1, 0⟩] ∧
    ([(⟨.ID, .str "foo", 1, 0⟩ : Token)])[1]? = none ∧
    parseProcedureCall 20 [⟨.ID, .str "foo", 1, 0⟩] 0 =
      (.ok (.procCall "foo" []), 1) :=
  ⟨rfl, rfl, rfl⟩

/-- C4 amended: whenever `parse_procedure_call` returns successfully,
either it consumed a trailing `.` as its last token, or the next
unconsumed token is the block-closing `]`, or the token stream is
exhausted; in every other situation the missing `.` is a syntax error. -/
theorem claim4_amended (fuel : Nat) (tks : List Token) (pos : Nat)
    (c : Instr) (q : Nat)
    (h : parseProcedureCall fuel tks pos = (.ok c, q)) :
    tokKindAt tks (q - 1) = some .DOT ∨
    tokKindAt tks q = some .RBRACKET ∨
    tokKindAt tks q = none := by
  unfold parseProcedureCall at h
  cases htk : tks[pos]? with
  | none => simp only [htk] at h; simp at h
  | some t =>
    simp only [htk] at h
    by_cases hid : t.kind = .ID
    · rw [if_pos hid] at h
      cases hargs : parseCallArgs fuel tks (pos + 1) [] with
      | mk res p2 =>
        simp only [hargs] at h
        cases res with
        | error e => simp at h
        | ok args =>
          cases hq : tks[p2]? with
          | none =>
            simp only [hq] at h
            simp only [Prod.mk.injEq] at h
            obtain ⟨-, hqq⟩ := h
            subst hqq
            right; right
            simp [tokKindAt, hq]
          | some u =>
            simp only [hq] at h
            by_cases hdot : u.kind = .DOT
            · rw [if_pos hdot] at h
              simp only [Prod.mk.injEq] at h
              obtain ⟨-, hqq⟩ := h
              subst hqq
              left
              simp [tokKindAt, hq, hdot]
            · rw [if_neg hdot] at h
              by_cases hrb : u.kind ≠ .RBRACKET
              · rw [if_pos hrb] at h
                simp at h
              · rw [if_neg hrb] at h
                simp only [Prod.mk.injEq] at h
                obtain ⟨-, hqq⟩ := h
                subst hqq
                right; left
                push_neg at hrb
                simp [tokKindAt, hq, hrb]
    · rw [if_neg hid] at h
      simp at h

/-- Witness for C4 (amended): on `f.` the call consumes the dot and the
first disjunct holds. -/
theorem claim4_witness :
    tokKindAt [⟨.ID, .str "f", 1, 0⟩, ⟨.DOT, .str ".", 1, 1⟩] (2 - 1) =
        some .DOT ∨
    tokKindAt [⟨.ID, .str "f", 1, 0⟩, ⟨.DOT, .str ".", 1, 1⟩] 2 =
        some .RBRACKET ∨
    tokKindAt [⟨.ID, .str "f", 1, 0⟩, ⟨.DOT, .str ".", 1, 1⟩] 2 = none :=
  claim4_amended 20 [⟨.ID, .str "f", 1, 0⟩, ⟨.DOT, .str ".", 1, 1⟩] 0
    (.procCall "f" []) 2 rfl

/-- C8: the labeled-parameter input is accepted, the label `andBalloons:`
is discarded, and the call carries two arguments the second of which is
the constant `#chips`. -/
theorem claim8_labeled_put :
    checkSource "| a b c d | [ put: 5 andBalloons: #chips. ]" = true ∧
    (parseProgram (stdFuel (toksOf "| a b c d | [ put: 5 andBalloons: #chips. ]"))
        (toksOf "| a b c d | [ put: 5 andBalloons: #chips. ]") 0 []).1 =
      .ok ⟨["a", "b", "c", "d"], [],
        [.procCall "put" [.num 5, .const "#chips"]]⟩ :=
  ⟨by decide, rfl⟩

/-- C5: for every input whose tokenization succeeds (all characters
recognized), concatenating the source spans of the emitted tokens —
in match order, skipping the discarded whitespace and newline matches —
reproduces exactly the non-whitespace content of the input, and there is
exactly one span per emitted token. -/
theorem claim5_roundtrip (s : String) {ts : List Token}
    (h : tokenize s = .ok ts) :
    (tokenSpans s).flatten = s.data.filter nonWsChar ∧
    (tokenSpans s).length = ts.length := by
  constructor
  · have hc := spans_concat s.data.length s.data (Nat.le_refl _)
    simpa [tokenSpans, scan] using hc
  · have hlen := tokensOfScan_length (scan s.data) 1 0 0 ts h
    simp [tokenSpans, hlen]

/-- Witness for C5 on a concrete accepted program. -/
theorem claim5_witness :
    (tokenSpans "| a b c d | [ face: #north. ]").flatten =
      "| a b c d | [ face: #north. ]".data.filter nonWsChar ∧
    (tokenSpans "| a b c d | [ face: #north. ]").length =
      (toksOf "| a b c d | [ face: #north. ]").length :=
  claim5_roundtrip "| a b c d | [ face: #north. ]" rfl

/-- C10: an all-whitespace (or empty) source tokenizes to the empty token
list, `parse_program` succeeds on it with empty variables, no procedures
and an empty main block while consuming nothing, yet `check_file` returns
false, because the global variable count is 0 rather than 4. -/
theorem claim10_empty_input (s : String)
    (h : ∀ c ∈ s.data, c = ' ' ∨ c = '\t' ∨ c = '\n') :
    tokenize s = .ok [] ∧
    parseProgram (stdFuel []) [] 0 [] = (.ok ⟨[], [], []⟩, 0, []) ∧
    checkSource s = false := by
  have htok : tokenize s = .ok [] :=
    tokensOfScan_ws (scan s.data) (scanAux_ws s.data.length s.data h) 1 0 0
  refine ⟨htok, rfl, ?_⟩
  simp only [checkSource, checkFileSt, htok]
  decide

/-- Witness for C10 on a small whitespace-only input. -/
theorem claim10_witness :
    tokenize " \n\t " = .ok [] ∧
    parseProgram (stdFuel []) [] 0 [] = (.ok ⟨[], [], []⟩, 0, []) ∧
    checkSource " \n\t " = false :=
  claim10_empty_input " \n\t " (by decide)

end LYM
